import Mathlib

/-!
Verification of the planning/orchestration core of the OSINT intel engine.

The development shallowly embeds, from the repository sources:
  * `intel_engine/ai/planner.py`          — `AIPlanner.analyze_gaps`, `AIPlanner.suggest_modules`;
  * `intel_engine/modules/research_ai_orchestrator.py`
        — `_build_execution_order` (dependency closure + cycle-tolerant DFS),
          `_order_modules`, `_load_module_class`, `_prepare_module_kwargs`,
          `_derive_reconng_target`, `_run_module` and the execution loop of
          `_execute_impl`.

Modelling conventions:
  * Python values stored in a profile are modelled by the inductive `PyVal`
    (`None`, bools, ints, strings, lists, dicts).  Python dicts are modelled as
    association lists whose first binding wins, matching unique-key dict
    literals.  Operations that raise in Python (`.get` on a non-dict, indexing
    a non-sequence) return `Except String`.
  * Python floats are idealised as exact rationals (`ℚ`); `round(x, 2)` is
    modelled by `round2`, rounding half-up to a multiple of 1/100 on exact
    rationals.
  * `list.sort(... reverse=True)` and `sorted(...)` are stable sorts; they are
    modelled by stable insertion sorts, which produce the same output as any
    stable sort for the same comparison.
  * The effectful parts of `_run_module` (importing a module class,
    constructing it and calling `execute`) are abstracted by an environment:
    `importClass` resolves an (import path, class name) pair to an optional
    implementation, and an implementation's `run` maps the live profile to
    either a returned output with an updated profile or a raised exception
    message with an updated profile.  Everything around these two capabilities
    (registry lookup, candidate iteration, status/summary/record construction,
    the skip precondition for Recon-ng, sequencing over the execution order)
    is translated concretely from the source.
  * Recursions that Python runs unboundedly (the dependency-closure `while`
    loop, the DFS `visit`) take an explicit fuel chosen provably large enough
    that the fuel-exhausted branch is unreachable: the closure can grow at
    most once per dependency-table entry value, and the DFS `visiting` guard
    bounds the recursion depth by the number of expanded modules.
-/

/-- First-binding-wins association-list lookup (model of Python dict access;
dict literals in the sources have unique keys). -/
def lookupStr {β : Type} (key : String) : List (String × β) → Option β
  | [] => Option.none
  | (k, v) :: rest => if key = k then some v else lookupStr key rest

/-- Python values as stored in a profile document. -/
inductive PyVal where
  | none
  | bool (b : Bool)
  | int (n : Int)
  | str (s : String)
  | list (xs : List PyVal)
  | dict (entries : List (String × PyVal))

/-- `v is None` (Python identity test with `None`). -/
def PyVal.isNone : PyVal → Bool
  | .none => true
  | _ => false

/-- Python truthiness of a value. -/
def pyTruthy : PyVal → Bool
  | .none => false
  | .bool b => b
  | .int n => n ≠ 0
  | .str s => s ≠ ""
  | .list xs => ¬xs.isEmpty
  | .dict entries => ¬entries.isEmpty

/-- `value in (None, "", [], {})`: the "no information provided" test of
`analyze_gaps` (membership by `==`; zero, `False` and non-empty containers
do not match). -/
def isNoInfo : PyVal → Bool
  | .none => true
  | .str s => s = ""
  | .list xs => xs.isEmpty
  | .dict entries => entries.isEmpty
  | _ => false

/-- Python `dict.get(key)` on the entries of a dict value (default `None`). -/
def dictGet (entries : List (String × PyVal)) (key : String) : PyVal :=
  (lookupStr key entries).getD .none

/-- `payload.get(field)`: succeeds only on dicts, otherwise Python raises
`AttributeError`. -/
def pyMapGet : PyVal → String → Except String PyVal
  | .dict entries, key => .ok (dictGet entries key)
  | _, _ => .error "AttributeError: object has no attribute get"

/-- Python `str.lower()` (module identifiers in this repository are ASCII, so
per-character ASCII lowering is exact). -/
def lowerStr (s : String) : String := ⟨s.data.map Char.toLower⟩

/-- Lexicographic code-point comparison of character lists (the order Python
uses to compare strings). -/
def charListLt : List Char → List Char → Bool
  | [], [] => false
  | [], _ :: _ => true
  | _ :: _, [] => false
  | a :: as, b :: bs =>
    if a.toNat < b.toNat then true
    else if b.toNat < a.toNat then false
    else charListLt as bs

/-- Python `a < b` on strings. -/
def strLt (a b : String) : Bool := charListLt a.data b.data

/-- A profile: mapping from section name to a stored value. -/
def Profile : Type := List (String × PyVal)

/-- `profile.get(section)` (default `None`). -/
def profileGet (profile : Profile) (s : String) : PyVal :=
  (lookupStr s profile).getD .none

/-- `profile.get(section, {})` (default `{}`). -/
def profileGetD (profile : Profile) (s : String) : PyVal :=
  (lookupStr s profile).getD (.dict [])

/-! ## AIPlanner (`intel_engine/ai/planner.py`) -/

/-- Planner state: the requirement index derived from the schema at
construction (`_extract_section_requirements`); the schema is caller-supplied,
so the index is kept abstract. -/
structure AIPlanner where
  section_requirements : List (String × List String)

/-- `_build_module_catalog`: static section → candidate-modules catalog. -/
def section_modules : List (String × List String) :=
  [ ("identity", ["Identity_DeepDive", "Alias_Expansion"]),
    ("contact", ["Contact_Network_Map"]),
    ("digital", ["Digital_Footprint_Audit"]),
    ("business", ["Research_ABN_Lookup", "Director_Association_Scan"]),
    ("legal", ["Legal_Proceedings_Scan"]),
    ("metadata", ["Document_Metadata_Aggregator"]),
    ("social", ["Social_Temporal_Analysis"]),
    ("geo", ["Geo_History_Reconstruction"]),
    ("risk", ["Risk_Scorer"]) ]

/-- One gap-report entry (`{"missing_fields": ..., "completeness": ...}`). -/
structure GapEntry where
  missing_fields : List String
  completeness : ℚ
deriving DecidableEq

/-- The field loop of `analyze_gaps`: collect required fields whose value is
absent or empty; `payload.get` raises on a non-dict payload. -/
def collectMissing (payload : PyVal) : List String → Except String (List String)
  | [] => .ok []
  | f :: fs => do
    let value ← pyMapGet payload f
    let rest ← collectMissing payload fs
    .ok (if isNoInfo value then f :: rest else rest)

/-- `analyze_gaps` section loop over the requirement index. -/
def analyzeGapsList (profile : Profile) :
    List (String × List String) → Except String (List (String × GapEntry))
  | [] => .ok []
  | (s, required_fields) :: rest => do
    let section_payload := profileGet profile s
    let missing_fields ←
      if section_payload.isNone then
        .ok (if required_fields.isEmpty then ["__section_missing__"] else required_fields)
      else
        collectMissing section_payload required_fields
    let completeness : ℚ :=
      max 0 (1 - (missing_fields.length : ℚ) / ((max 1 required_fields.length : Nat) : ℚ))
    let entries ← analyzeGapsList profile rest
    .ok ((s, ⟨missing_fields, completeness⟩) :: entries)

/-- `AIPlanner.analyze_gaps`. -/
def analyzeGaps (P : AIPlanner) (profile : Profile) :
    Except String (List (String × GapEntry)) :=
  analyzeGapsList profile P.section_requirements

/-- Model of Python `round(x, 2)` on exact rationals: round half-up to a
multiple of 1/100 (Python rounds binary floats half-to-even; the two agree
away from exact hundredth-ties, which is the regime of every fact proved
below). -/
def round2 (q : ℚ) : ℚ := ((⌊q * 100 + 1 / 2⌋ : ℤ) : ℚ) / 100

/-- The score computed for one (section gap entry, candidate rank) pair:
`round(base_score * priority_multiplier * field_pressure, 2)` with
`base_score = missing_ratio * 100`,
`priority_multiplier = max(0.5, 1.0 - rank * 0.1)`,
`field_pressure = 1 + len(missing_fields) * 0.05`. -/
def suggestionScore (details : GapEntry) (rank : Nat) : ℚ :=
  round2 ((1 - details.completeness) * 100 *
    max (1 / 2 : ℚ) (1 - (rank : ℚ) * (1 / 10)) *
    (1 + (details.missing_fields.length : ℚ) * (1 / 20)))

/-- The inner candidate loop of `suggest_modules` for one section: skip
sections without candidates or without missing data, skip executed modules,
emit one `(module_name, score)` suggestion per remaining candidate. -/
def sectionSuggestions (executed : List String) (s : String) (details : GapEntry) :
    List (String × ℚ) :=
  let modules := (lookupStr s section_modules).getD []
  if modules.isEmpty then []
  else if (1 - details.completeness : ℚ) ≤ 0 then []
  else
    modules.enum.filterMap fun p =>
      if lowerStr p.2 ∈ executed then Option.none
      else some (p.2, suggestionScore details p.1)

/-- All suggestions in gap-report iteration order, before sorting. -/
def rawSuggestions (executed : List String) (gaps : List (String × GapEntry)) :
    List (String × ℚ) :=
  gaps.flatMap fun g => sectionSuggestions executed g.1 g.2

/-- Stable descending insertion for the score sort: `x` (earlier in insertion
order than everything in the already-sorted tail) passes over strictly higher
scores and lands before equal or lower ones. -/
def insertDesc (x : String × ℚ) : List (String × ℚ) → List (String × ℚ)
  | [] => [x]
  | y :: ys => if x.2 < y.2 then y :: insertDesc x ys else x :: y :: ys

/-- Model of `suggestions.sort(key=score, reverse=True)`: the stable
descending sort (Python's sort is stable; a stable sort's output is unique,
so insertion sort is an exact model). -/
def sortSuggestions : List (String × ℚ) → List (String × ℚ)
  | [] => []
  | x :: xs => insertDesc x (sortSuggestions xs)

/-- `AIPlanner.suggest_modules`. -/
def suggestModules (P : AIPlanner) (profile : Profile) (history : List String) :
    Except String (List (String × ℚ)) := do
  let executed := history.map lowerStr
  let gap_summary ← analyzeGaps P profile
  .ok (sortSuggestions (rawSuggestions executed gap_summary))

/-! State-threaded variants for the frame claim: every access `analyze_gaps`
and `suggest_modules` make to the profile is a read (`profile.get`,
`section_payload.get`); the threaded versions pass the profile through each
access and return it, which makes "the profile is unchanged" a statable
equation. -/

/-- `profile.get(section)` as a state-threaded read. -/
def profileGetSt (profile : Profile) (s : String) : PyVal × Profile :=
  (profileGet profile s, profile)

/-- State-threaded `analyze_gaps` section loop. -/
def analyzeGapsListSt (profile : Profile) :
    List (String × List String) → Except String (List (String × GapEntry)) × Profile
  | [] => (.ok [], profile)
  | (s, required_fields) :: rest =>
    let (section_payload, profile1) := profileGetSt profile s
    let missingE : Except String (List String) :=
      if section_payload.isNone then
        .ok (if required_fields.isEmpty then ["__section_missing__"] else required_fields)
      else
        collectMissing section_payload required_fields
    match missingE with
    | .error e => (.error e, profile1)
    | .ok missing_fields =>
      let completeness : ℚ :=
        max 0 (1 - (missing_fields.length : ℚ) / ((max 1 required_fields.length : Nat) : ℚ))
      match analyzeGapsListSt profile1 rest with
      | (.error e, profile2) => (.error e, profile2)
      | (.ok entries, profile2) =>
        (.ok ((s, ⟨missing_fields, completeness⟩) :: entries), profile2)

/-- State-threaded `analyze_gaps`. -/
def analyzeGapsSt (P : AIPlanner) (profile : Profile) :
    Except String (List (String × GapEntry)) × Profile :=
  analyzeGapsListSt profile P.section_requirements

/-- State-threaded `suggest_modules` (the profile is only touched through
`analyze_gaps`). -/
def suggestModulesSt (P : AIPlanner) (profile : Profile) (history : List String) :
    Except String (List (String × ℚ)) × Profile :=
  let executed := history.map lowerStr
  match analyzeGapsSt P profile with
  | (.error e, profile1) => (.error e, profile1)
  | (.ok gap_summary, profile1) =>
    (.ok (sortSuggestions (rawSuggestions executed gap_summary)), profile1)

/-! ## Orchestrator: dependency closure and execution order
(`research_ai_orchestrator.py`, `_build_execution_order` / `_order_modules`).
The dependency table and priority list are static data (the spec's catalog
boundary), so the resolver is parameterised by the table and instantiated
with the orchestrator's literal table below. -/

/-- `dependencies.get(module_id, [])`. -/
def depLookup (table : List (String × List String)) (m : String) : List String :=
  (lookupStr m table).getD []

/-- `if dependency not in expanded: expanded.add(dependency)` (sets are
modelled as duplicate-free lists; order is immaterial downstream). -/
def addMissing (s : List String) (d : String) : List String :=
  if d ∈ s then s else s ++ [d]

/-- One pass of the closure `while` body: fold every member's direct
dependencies into the set. -/
def closureStep (table : List (String × List String)) (s : List String) : List String :=
  s.foldl (fun acc m => (depLookup table m).foldl addMissing acc) s

/-- The closure `while changed:` loop.  One fuel unit is spent per growing
pass; a pass that adds nothing returns. -/
def closeLoop (table : List (String × List String)) : Nat → List String → List String
  | 0, s => s
  | fuel + 1, s =>
    let s1 := closureStep table s
    if s1.length = s.length then s else closeLoop table fuel s1

/-- Total number of dependency occurrences in the table: every growing
closure pass adds at least one element drawn from the table's dependency
lists, so `totalDepCount table + 1` passes always reach the fixed point. -/
def totalDepCount (table : List (String × List String)) : Nat :=
  (table.map fun e => e.2.length).sum

/-- `expanded = set(selected_modules)` closed under the dependency table
(the fixed-point loop of `_build_execution_order`). -/
def expandModules (table : List (String × List String)) (selected : List String) :
    List String :=
  closeLoop table (totalDepCount table + 1) selected.dedup

/-- `MODULE_PRIORITY`. -/
def MODULE_PRIORITY : List String :=
  ["theHarvester", "Recon-ng", "SpiderFoot", "Photon", "Metagoofil",
   "Sherlock", "GHunt", "Skiptracer", "Twint"]

/-- Stable ascending insertion for `sorted(remaining)` over strings. -/
def insertStrAsc (x : String) : List String → List String
  | [] => [x]
  | y :: ys => if strLt y x then y :: insertStrAsc x ys else x :: y :: ys

/-- Model of Python `sorted` on strings (stable; comparison is lexicographic
on code points, as in Lean's `String` order). -/
def sortStrings : List String → List String
  | [] => []
  | x :: xs => insertStrAsc x (sortStrings xs)

/-- `_order_modules`: priority members in `MODULE_PRIORITY` order, then the
lexically sorted remainder. -/
def orderModules (modules : List String) : List String :=
  MODULE_PRIORITY.filter (fun n => decide (n ∈ modules)) ++
    sortStrings (modules.filter fun n => decide (n ∉ MODULE_PRIORITY))

/-- The mutable state of the DFS in `_build_execution_order`: the output
sequence and the `visiting` / `visited` sets. -/
structure DfsState where
  ordered : List String
  visiting : List String
  visited : List String

/-- Visiting a list of nodes in order with a given visit function (the
dependency loop inside `visit`, and the top-level loop over
`_order_modules(list(expanded))`). -/
def visitSeq (f : DfsState → String → DfsState) : List String → DfsState → DfsState
  | [], st => st
  | d :: ds, st => visitSeq f ds (f st d)

/-- The recursive `visit` of `_build_execution_order`: return on `visited`;
on `visiting`, log the cycle and return (the back-edge is dropped); otherwise
push onto `visiting`, visit each dependency inside `expanded`, pop, finalize.
Fuel replaces Python's unbounded recursion; the `visiting` guard bounds the
genuine recursion depth by the number of expanded modules, so the fuel used
below never runs out. -/
def visitF (table : List (String × List String)) (expanded : List String) :
    Nat → DfsState → String → DfsState
  | 0, st, _ => st
  | fuel + 1, st, m =>
    if m ∈ st.visited then st
    else if m ∈ st.visiting then st
    else
      let st2 := visitSeq (visitF table expanded fuel)
        ((depLookup table m).filter fun d => decide (d ∈ expanded))
        ⟨st.ordered, m :: st.visiting, st.visited⟩
      ⟨st2.ordered ++ [m], st2.visiting.erase m, m :: st2.visited⟩

/-- `_build_execution_order`, parameterised by the dependency table. -/
def buildExecutionOrderWith (table : List (String × List String))
    (selected_modules : List String) : List String :=
  let expanded := expandModules table selected_modules
  (visitSeq (visitF table expanded (expanded.length + 1)) (orderModules expanded)
    ⟨[], [], []⟩).ordered

/-- The orchestrator's literal dependency table. -/
def orchestratorDeps : List (String × List String) :=
  [ ("Recon-ng", ["theHarvester"]),
    ("SpiderFoot", ["theHarvester", "Recon-ng"]),
    ("Photon", ["theHarvester"]),
    ("Metagoofil", ["Photon"]),
    ("GHunt", []),
    ("Sherlock", []),
    ("Skiptracer", []),
    ("Twint", []),
    ("theHarvester", []) ]

/-- `_build_execution_order` with the orchestrator's table. -/
def buildExecutionOrder (selected_modules : List String) : List String :=
  buildExecutionOrderWith orchestratorDeps selected_modules

/-- A rank certifying the orchestrator's table acyclic: every dependency has
strictly smaller depth. -/
def orchDepth (m : String) : Nat :=
  if m = "SpiderFoot" ∨ m = "Metagoofil" then 2
  else if m = "Recon-ng" ∨ m = "Photon" then 1
  else 0

/-! ## Orchestrator: module loading and execution
(`_load_module_class`, `_prepare_module_kwargs`, `_derive_reconng_target`,
`_run_module`, and the result loop of `_execute_impl`). -/

/-- One `MODULE_REGISTRY` candidate entry. -/
structure Candidate where
  import_path : String
  class_name : String
  profile_section : String

/-- The orchestrator's literal `MODULE_REGISTRY`. -/
def MODULE_REGISTRY : List (String × List Candidate) :=
  [ ("theHarvester",
      [⟨"intel_engine.modules.research_domain_email_enumeration",
        "Research_Domain_Email_Enumeration", "digital"⟩]),
    ("SpiderFoot",
      [⟨"intel_engine.modules.research_automation_spiderfoot",
        "Research_Automation_SpiderFoot", "digital"⟩]),
    ("Recon-ng",
      [⟨"intel_engine.modules.research_framework_reconng",
        "Research_Framework_ReconNG", "intelligence"⟩]),
    ("Metagoofil",
      [⟨"intel_engine.modules.research_metadata_document",
        "Research_Metadata_Document_Extraction", "digital"⟩]),
    ("Photon",
      [⟨"intel_engine.modules.research_web_crawling_photon",
        "ResearchWebCrawlingPhoton", "digital"⟩,
       ⟨"intel_engine.modules.research_web_crawling_photon",
        "Research_Web_Crawling_Photon", "digital"⟩]),
    ("Sherlock",
      [⟨"intel_engine.modules.research_identity_username_search",
        "Research_Identity_Username_Search", "social"⟩]),
    ("GHunt",
      [⟨"intel_engine.modules.research_account_google_intel",
        "ResearchAccountGoogleIntel", "digital"⟩]),
    ("Skiptracer",
      [⟨"intel_engine.modules.research_enrichment_skiptracer",
        "Research_Enrichment_Skiptracer", "enrichment"⟩]),
    ("Twint",
      [⟨"intel_engine.modules.research_social_twitter_intelligence",
        "ResearchSocialTwitterIntelligence", "social"⟩,
       ⟨"intel_engine.modules.research_twitter_activity",
        "ResearchSocialTwitterActivity", "social"⟩]) ]

/-- Outcome of constructing a module and calling `execute(profile)`: either a
returned output value together with the (possibly mutated) profile, or a
raised exception message together with the (possibly mutated) profile. -/
inductive ExecOutcome where
  | ok (output : PyVal) (profile1 : Profile)
  | raises (msg : String) (profile1 : Profile)

/-- An importable module implementation: the abstracted behaviour of
`module_class(**kwargs)` followed by `instance.execute(profile)`. -/
structure ModuleImpl where
  run : Profile → ExecOutcome

/-- The external capability `_run_module` relies on: resolving an import path
and class name to an implementation (`importlib.import_module` + `getattr`),
`none` when importing or resolving raises. -/
structure OrchestratorEnv where
  importClass : String → String → Option ModuleImpl

/-- The candidate loop of `_load_module_class`: first candidate that imports
and resolves wins, with its `profile_section`. -/
def tryCandidates (imp : String → String → Option ModuleImpl) :
    List Candidate → Option (ModuleImpl × String)
  | [] => Option.none
  | c :: cs =>
    match imp c.import_path c.class_name with
    | some impl => some (impl, c.profile_section)
    | Option.none => tryCandidates imp cs

/-- `_load_module_class`: registry lookup, candidate iteration, and the
fallback section (`"unknown"` for unregistered ids, the first candidate's
section when all candidates fail). -/
def loadModuleClass (imp : String → String → Option ModuleImpl) (module_id : String) :
    Option ModuleImpl × String :=
  match lookupStr module_id MODULE_REGISTRY with
  | Option.none => (Option.none, "unknown")
  | some [] => (Option.none, "unknown")
  | some (c :: cs) =>
    match tryCandidates imp (c :: cs) with
    | some (impl, sec) => (some impl, sec)
    | Option.none => (Option.none, c.profile_section)

/-- Python `value[0]` for the target derivation: first element of a list,
first character of a non-empty string; anything else raises. -/
def pyIndex0 : PyVal → Except String PyVal
  | .list (x :: _) => .ok x
  | .list [] => .error "IndexError: list index out of range"
  | .str s =>
    if s.isEmpty then .error "IndexError: string index out of range"
    else .ok (.str (String.singleton (s.get 0)))
  | _ => .error "TypeError: object is not subscriptable"

/-- `str(v)` is the empty string exactly when `v` is the empty string (the
rendering of every other Python value is non-empty); this is all
`_prepare_module_kwargs` observes of the stringified target. -/
def strFalsy (v : PyVal) : Bool :=
  match v with
  | .str s => s.isEmpty
  | _ => false

/-- `x or default` for the `digital.get("domains") or []` idiom. -/
def pyOr (v defaultVal : PyVal) : PyVal :=
  if pyTruthy v then v else defaultVal

/-- `_derive_reconng_target`: probe domains, company names, emails, phones,
full name in that order; reads can raise when a section holds a non-dict. -/
def deriveReconngTarget (profile : Profile) :
    Except String (Option (String × PyVal)) := do
  let digital := profileGetD profile "digital"
  let domains := pyOr (← pyMapGet digital "domains") (.list [])
  if pyTruthy domains then
    let v ← pyIndex0 domains
    return some ("domain", v)
  else
  let business := profileGetD profile "business"
  let company_names := pyOr (← pyMapGet business "company_names") (.list [])
  if pyTruthy company_names then
    let v ← pyIndex0 company_names
    return some ("company", v)
  else
  let contact := profileGetD profile "contact"
  let emails := pyOr (← pyMapGet contact "emails") (.list [])
  if pyTruthy emails then
    let v ← pyIndex0 emails
    return some ("contact", v)
  else
  let phones := pyOr (← pyMapGet contact "phones") (.list [])
  if pyTruthy phones then
    let v ← pyIndex0 phones
    return some ("contact", v)
  else
  let identity := profileGetD profile "identity"
  let full_name ← pyMapGet identity "full_name"
  if pyTruthy full_name then
    return some ("contact", full_name)
  else
    return Option.none

/-- `_prepare_module_kwargs`, reduced to its observable skip decision: for
every module except Recon-ng there is no precondition; for Recon-ng a missing
or empty stringified target yields the skip reason.  (The kwargs themselves —
logger, workspace name, target — are consumed by the abstracted constructor
inside `ModuleImpl.run` and carry no further observable behaviour here.) -/
def prepareModuleKwargs (module_id : String) (profile : Profile) :
    Except String (Option String) := do
  if module_id ≠ "Recon-ng" then
    return Option.none
  else
    match ← deriveReconngTarget profile with
    | Option.none => return some "No suitable target found for Recon-ng execution."
    | some (_, v) =>
      if strFalsy v then
        return some "No suitable target found for Recon-ng execution."
      else
        return Option.none

/-- One per-module Execution Record. -/
structure ExecRecord where
  module : String
  status : String
  summary : String
  profile_section : String
  output_keys : List String
deriving DecidableEq

/-- `list(output.keys()) if isinstance(output, dict) else []`. -/
def pyKeys : PyVal → List String
  | .dict entries => entries.map Prod.fst
  | _ => []

/-- `_run_module`: unavailable when no class loads; then, inside the `try`,
the skip precondition, construction + execution, and the `except` branch
recording `failed` with the exception's message.  Total by construction — no
branch propagates an exception. -/
def runModule (env : OrchestratorEnv) (module_id : String) (profile : Profile) :
    ExecRecord × Profile :=
  match loadModuleClass env.importClass module_id with
  | (Option.none, sec) =>
    (⟨module_id, "unavailable", "Module implementation not found.", sec, []⟩, profile)
  | (some impl, sec) =>
    match prepareModuleKwargs module_id profile with
    | .error msg => (⟨module_id, "failed", msg, sec, []⟩, profile)
    | .ok (some skip_reason) => (⟨module_id, "skipped", skip_reason, sec, []⟩, profile)
    | .ok Option.none =>
      match impl.run profile with
      | .raises msg profile1 => (⟨module_id, "failed", msg, sec, []⟩, profile1)
      | .ok output profile1 =>
        (⟨module_id, "completed", "Module executed successfully.", sec,
          pyKeys output⟩, profile1)

/-- The result loop of `_execute_impl`: run every module of the execution
order in sequence against the live profile, appending one record each. -/
def runModules (env : OrchestratorEnv) : List String → Profile → List ExecRecord × Profile
  | [], profile => ([], profile)
  | m :: ms, profile =>
    let (record, profile1) := runModule env m profile
    let (records, profile2) := runModules env ms profile1
    (record :: records, profile2)

/-! ## Verification infrastructure for the DFS -/

/-- Number of expanded modules not currently on the DFS stack; the fuel
budget of a `visit` call must exceed it. -/
def missCount (expanded : List String) (st : DfsState) : Nat :=
  (expanded.filter fun x => decide (x ∉ st.visiting)).length

/-- A sequence respects the dependency table over `expanded`: each entry's
dependencies that lie in `expanded` occur strictly earlier. -/
def DepOrdered (table : List (String × List String)) (expanded l : List String) : Prop :=
  ∀ (k : Nat) (hk : k < l.length) (d : String),
    d ∈ depLookup table (l.get ⟨k, hk⟩) → d ∈ expanded → d ∈ l.take k

/-- Invariant of the DFS state: the output is duplicate-free, coincides with
the `visited` set, is disjoint from the stack, stays inside `expanded`, and
respects the dependency table. -/
structure DfsInv (table : List (String × List String)) (expanded : List String)
    (st : DfsState) : Prop where
  nodup : st.ordered.Nodup
  mem_iff : ∀ x, x ∈ st.ordered ↔ x ∈ st.visited
  disj : ∀ x, x ∈ st.visiting → x ∉ st.visited
  sub : ∀ x, x ∈ st.ordered → x ∈ expanded
  ord : DepOrdered table expanded st.ordered

/-! ## Theorems -/

/-! ### Gap analyzer: helper lemmas -/

/-- Definitional reduction of `Except` bind on a success value. -/
@[simp] theorem exceptBind_ok {α β : Type} (a : α) (f : α → Except String β) :
    (Except.ok a >>= f) = f a := rfl

/-- Definitional reduction of `Except` bind on an error value. -/
@[simp] theorem exceptBind_error {α β : Type} (e : String) (f : α → Except String β) :
    ((Except.error e : Except String α) >>= f) = Except.error e := rfl

/-- On a dict payload the field loop never raises and collects exactly the
required fields whose stored value is empty-ish. -/
theorem collectMissing_dict (entries : List (String × PyVal)) :
    ∀ fields : List String,
      collectMissing (PyVal.dict entries) fields =
        .ok (fields.filter fun f => isNoInfo (dictGet entries f)) := by
  intro fields
  induction fields with
  | nil => rfl
  | cons f fs ih =>
    simp only [collectMissing, pyMapGet, List.filter_cons, ih, exceptBind_ok]

/-- `isNoInfo` holds exactly on `None`, the empty string, the empty list and
the empty dict. -/
theorem isNoInfo_iff (v : PyVal) :
    isNoInfo v = true ↔
      (v = PyVal.none ∨ v = PyVal.str "" ∨ v = PyVal.list [] ∨ v = PyVal.dict []) := by
  cases v <;> simp [isNoInfo, List.isEmpty_iff]

/-- `analyzeGapsList` succeeds when every listed section is absent (`None`)
or holds a mapping, and then reports sections in requirement-index order. -/
theorem analyzeGapsList_ok (profile : Profile) :
    ∀ reqs : List (String × List String),
      (∀ s req, (s, req) ∈ reqs →
        (profileGet profile s).isNone = true ∨
          ∃ entries, profileGet profile s = PyVal.dict entries) →
      ∃ res, analyzeGapsList profile reqs = .ok res ∧
        res.map Prod.fst = reqs.map Prod.fst := by
  intro reqs
  induction reqs with
  | nil => exact fun _ => ⟨[], rfl, rfl⟩
  | cons hd rest ih =>
    intro h
    obtain ⟨s, req⟩ := hd
    obtain ⟨res1, hres1, hkeys⟩ := ih fun s' req' h' => h s' req' (List.mem_cons_of_mem _ h')
    rcases h s req (List.mem_cons_self _ _) with hnone | ⟨entries, hdict⟩
    · refine ⟨(s, ⟨if req.isEmpty then ["__section_missing__"] else req,
        max 0 (1 - ((if req.isEmpty then ["__section_missing__"] else req).length : ℚ) /
          ((max 1 req.length : Nat) : ℚ))⟩) :: res1, ?_, ?_⟩
      · simp [analyzeGapsList, hnone, hres1]
      · simp [hkeys]
    · refine ⟨(s, ⟨req.filter fun f => isNoInfo (dictGet entries f),
        max 0 (1 - ((req.filter fun f => isNoInfo (dictGet entries f)).length : ℚ) /
          ((max 1 req.length : Nat) : ℚ))⟩) :: res1, ?_, ?_⟩
      · simp [analyzeGapsList, hdict, PyVal.isNone, collectMissing_dict, hres1]
      · simp [hkeys]

/-- Characterisation of the entry produced for a section holding a mapping:
its missing fields are exactly the required fields whose value is empty-ish. -/
theorem analyzeGapsList_dict_entry (profile : Profile) :
    ∀ (reqs : List (String × List String)) (res : List (String × GapEntry)),
      analyzeGapsList profile reqs = .ok res →
      ∀ s req entries, (s, req) ∈ reqs →
        profileGet profile s = PyVal.dict entries →
        ∃ e, (s, e) ∈ res ∧
          e.missing_fields = req.filter fun f => isNoInfo (dictGet entries f) := by
  intro reqs
  induction reqs with
  | nil => intro res _ s req entries hmem; cases hmem
  | cons hd rest ih =>
    intro res hok s req entries hmem hdict
    obtain ⟨s0, req0⟩ := hd
    simp only [analyzeGapsList] at hok
    by_cases hpay : (profileGet profile s0).isNone = true
    · rw [if_pos hpay, exceptBind_ok] at hok
      rcases hrest : analyzeGapsList profile rest with e1 | res1
      · rw [hrest, exceptBind_error] at hok
        cases hok
      · rw [hrest, exceptBind_ok] at hok
        rcases List.mem_cons.1 hmem with heq | hmem'
        · exfalso
          have hs : s0 = s := congrArg Prod.fst heq.symm
          rw [hs, hdict] at hpay
          simp [PyVal.isNone] at hpay
        · obtain ⟨e, he, hch⟩ := ih res1 hrest s req entries hmem' hdict
          exact ⟨e, by rw [← Except.ok.inj hok]; exact List.mem_cons_of_mem _ he, hch⟩
    · rw [if_neg hpay] at hok
      rcases hcoll : collectMissing (profileGet profile s0) req0 with e2 | miss0
      · rw [hcoll, exceptBind_error] at hok
        cases hok
      · rw [hcoll, exceptBind_ok] at hok
        rcases hrest : analyzeGapsList profile rest with e1 | res1
        · rw [hrest, exceptBind_error] at hok
          cases hok
        · rw [hrest, exceptBind_ok] at hok
          rcases List.mem_cons.1 hmem with heq | hmem'
          · have hs : s0 = s := congrArg Prod.fst heq.symm
            have hreq : req0 = req := congrArg Prod.snd heq.symm
            subst hs; subst hreq
            rw [hdict, collectMissing_dict] at hcoll
            cases hcoll
            rw [← Except.ok.inj hok]
            exact ⟨_, List.mem_cons_self _ _, rfl⟩
          · obtain ⟨e, he, hch⟩ := ih res1 hrest s req entries hmem' hdict
            exact ⟨e, by rw [← Except.ok.inj hok]; exact List.mem_cons_of_mem _ he, hch⟩

/-! ### Claims C5 and C6 -/

/-- C5, counterexample: the claim asserts totality for profiles whose section
values may be sequences, but a sequence-valued section with required fields
makes `section_payload.get(field_name)` raise `AttributeError`, which
propagates out of `analyze_gaps`. -/
theorem c5_counterexample_sequence_section_raises :
    analyzeGaps ⟨[("identity", ["full_name"])]⟩ [("identity", PyVal.list [])] =
      .error "AttributeError: object has no attribute get" := rfl

/-- C5, amended: for every requirement index and every profile whose listed
sections are absent (`None`) or hold mappings, `analyze_gaps` returns without
raising, with exactly one entry per section of the requirement index, in
index order. -/
theorem c5_gap_analysis_total_on_mapping_profiles (P : AIPlanner) (profile : Profile)
    (h : ∀ s req, (s, req) ∈ P.section_requirements →
      (profileGet profile s).isNone = true ∨
        ∃ entries, profileGet profile s = PyVal.dict entries) :
    ∃ res, analyzeGaps P profile = .ok res ∧
      res.map Prod.fst = P.section_requirements.map Prod.fst :=
  analyzeGapsList_ok profile P.section_requirements h

/-- C5, witness: a concrete mapping-valued profile satisfying the amended
hypothesis, with the amended conclusion at that input. -/
theorem c5_gap_analysis_total_witness :
    (∀ s req, (s, req) ∈ (AIPlanner.mk [("identity", ["full_name", "aliases"])]).section_requirements →
      (profileGet [("identity", PyVal.dict [("full_name", PyVal.str "Jane")])] s).isNone = true ∨
        ∃ entries, profileGet [("identity", PyVal.dict [("full_name", PyVal.str "Jane")])] s =
          PyVal.dict entries) ∧
    ∃ res, analyzeGaps (AIPlanner.mk [("identity", ["full_name", "aliases"])])
        [("identity", PyVal.dict [("full_name", PyVal.str "Jane")])] = .ok res ∧
      res.map Prod.fst =
        ([("identity", ["full_name", "aliases"])] : List (String × List String)).map Prod.fst := by
  have h : ∀ s req, (s, req) ∈ (AIPlanner.mk [("identity", ["full_name", "aliases"])]).section_requirements →
      (profileGet [("identity", PyVal.dict [("full_name", PyVal.str "Jane")])] s).isNone = true ∨
        ∃ entries, profileGet [("identity", PyVal.dict [("full_name", PyVal.str "Jane")])] s =
          PyVal.dict entries := by
    intro s req hm
    rw [List.mem_singleton, Prod.mk.injEq] at hm
    obtain ⟨hs, -⟩ := hm
    subst hs
    exact Or.inr ⟨_, rfl⟩
  exact ⟨h, c5_gap_analysis_total_on_mapping_profiles _ _ h⟩

/-- C6: for a section present in the profile as a mapping, a required field
is reported missing iff its stored value is absent (`None`), the empty
string, an empty sequence, or an empty mapping. -/
theorem c6_missing_field_iff_no_information (P : AIPlanner) (profile : Profile)
    (res : List (String × GapEntry)) (s : String) (req : List String)
    (entries : List (String × PyVal))
    (hok : analyzeGaps P profile = .ok res)
    (hmem : (s, req) ∈ P.section_requirements)
    (hdict : profileGet profile s = PyVal.dict entries) :
    ∃ e, (s, e) ∈ res ∧ ∀ f ∈ req,
      (f ∈ e.missing_fields ↔
        (dictGet entries f = PyVal.none ∨ dictGet entries f = PyVal.str "" ∨
         dictGet entries f = PyVal.list [] ∨ dictGet entries f = PyVal.dict [])) := by
  obtain ⟨e, he, hch⟩ :=
    analyzeGapsList_dict_entry profile P.section_requirements res hok s req entries hmem hdict
  refine ⟨e, he, fun f hf => ?_⟩
  rw [hch, ← isNoInfo_iff]
  simp [List.mem_filter, hf]

/-- C6, witness: a section with one populated, one empty-list and one absent
required field; zero-valued and `False`-valued fields are also exercised as
not missing. -/
theorem c6_missing_field_witness :
    (analyzeGaps ⟨[("identity", ["full_name", "aliases", "dob", "zero", "flag"])]⟩
        [("identity", PyVal.dict
          [("full_name", PyVal.str "Jane"), ("aliases", PyVal.list []),
           ("zero", PyVal.int 0), ("flag", PyVal.bool false)])] =
      .ok [("identity", ⟨["aliases", "dob"],
        max 0 (1 - ((2 : Nat) : ℚ) / (((5 : Nat) : Nat) : ℚ))⟩)]) ∧
    ((["full_name", "aliases", "dob", "zero", "flag"] : List String) =
      ["full_name", "aliases", "dob", "zero", "flag"]) ∧
    ∃ e, ("identity", e) ∈
        ([("identity", (⟨["aliases", "dob"],
          max 0 (1 - ((2 : Nat) : ℚ) / (((5 : Nat) : Nat) : ℚ))⟩ : GapEntry))] :
            List (String × GapEntry)) ∧
      ∀ f ∈ (["full_name", "aliases", "dob", "zero", "flag"] : List String),
        (f ∈ e.missing_fields ↔
          (dictGet [("full_name", PyVal.str "Jane"), ("aliases", PyVal.list []),
              ("zero", PyVal.int 0), ("flag", PyVal.bool false)] f = PyVal.none ∨
           dictGet [("full_name", PyVal.str "Jane"), ("aliases", PyVal.list []),
              ("zero", PyVal.int 0), ("flag", PyVal.bool false)] f = PyVal.str "" ∨
           dictGet [("full_name", PyVal.str "Jane"), ("aliases", PyVal.list []),
              ("zero", PyVal.int 0), ("flag", PyVal.bool false)] f = PyVal.list [] ∨
           dictGet [("full_name", PyVal.str "Jane"), ("aliases", PyVal.list []),
              ("zero", PyVal.int 0), ("flag", PyVal.bool false)] f = PyVal.dict [])) := by
  have hok : analyzeGaps ⟨[("identity", ["full_name", "aliases", "dob", "zero", "flag"])]⟩
      [("identity", PyVal.dict
        [("full_name", PyVal.str "Jane"), ("aliases", PyVal.list []),
         ("zero", PyVal.int 0), ("flag", PyVal.bool false)])] =
      .ok [("identity", ⟨["aliases", "dob"],
        max 0 (1 - ((2 : Nat) : ℚ) / (((5 : Nat) : Nat) : ℚ))⟩)] := rfl
  refine ⟨hok, rfl, ?_⟩
  exact c6_missing_field_iff_no_information _ _ _ _ _ _ hok (List.mem_cons_self _ _) rfl

/-! ### Suggestion engine: helper lemmas -/

/-- Membership through a stable descending insertion. -/
theorem mem_insertDesc (x a : String × ℚ) :
    ∀ l, a ∈ insertDesc x l ↔ a = x ∨ a ∈ l := by
  intro l
  induction l with
  | nil => simp [insertDesc]
  | cons y ys ih =>
    simp only [insertDesc]
    by_cases h : x.2 < y.2
    · rw [if_pos h]
      simp only [List.mem_cons, ih]
      tauto
    · rw [if_neg h]
      simp only [List.mem_cons]

/-- Membership through the stable descending sort. -/
theorem mem_sortSuggestions (a : String × ℚ) :
    ∀ l, a ∈ sortSuggestions l ↔ a ∈ l := by
  intro l
  induction l with
  | nil => simp [sortSuggestions]
  | cons x xs ih =>
    simp [sortSuggestions, mem_insertDesc, ih]

/-- Insertion preserves the descending order. -/
theorem insertDesc_sorted (x : String × ℚ) :
    ∀ l, List.Pairwise (fun p q : String × ℚ => q.2 ≤ p.2) l →
      List.Pairwise (fun p q : String × ℚ => q.2 ≤ p.2) (insertDesc x l) := by
  intro l
  induction l with
  | nil => intro _; simp [insertDesc]
  | cons y ys ih =>
    intro hp
    rw [List.pairwise_cons] at hp
    obtain ⟨hy, hys⟩ := hp
    simp only [insertDesc]
    by_cases h : x.2 < y.2
    · rw [if_pos h, List.pairwise_cons]
      refine ⟨fun z hz => ?_, ih hys⟩
      rcases (mem_insertDesc x z ys).1 hz with rfl | hzys
      · exact le_of_lt h
      · exact hy z hzys
    · rw [if_neg h, List.pairwise_cons]
      refine ⟨fun z hz => ?_, List.Pairwise.cons hy hys⟩
      rcases List.mem_cons.1 hz with rfl | hzys
      · exact not_lt.1 h
      · exact le_trans (hy z hzys) (not_lt.1 h)

/-- The stable descending sort sorts. -/
theorem sortSuggestions_sorted :
    ∀ l, List.Pairwise (fun p q : String × ℚ => q.2 ≤ p.2) (sortSuggestions l) := by
  intro l
  induction l with
  | nil => simp [sortSuggestions]
  | cons x xs ih => exact insertDesc_sorted x _ ih

/-- Insertion never reorders entries of any fixed score: elements passed over
by the inserted entry have strictly greater scores. -/
theorem filter_insertDesc (c : ℚ) (x : String × ℚ) :
    ∀ l, (insertDesc x l).filter (fun e => decide (e.2 = c)) =
      if x.2 = c then x :: l.filter (fun e => decide (e.2 = c))
      else l.filter (fun e => decide (e.2 = c)) := by
  intro l
  induction l with
  | nil => by_cases hx : x.2 = c <;> simp [insertDesc, hx]
  | cons y ys ih =>
    simp only [insertDesc]
    by_cases h : x.2 < y.2
    · rw [if_pos h]
      by_cases hx : x.2 = c
      · have hy : ¬(y.2 = c) := by
          intro hyc
          have hxy : x.2 = y.2 := hx.trans hyc.symm
          exact absurd h (by rw [hxy]; exact lt_irrefl _)
        simp [List.filter_cons, hy, ih, hx]
      · simp [List.filter_cons, ih, hx]
    · rw [if_neg h]
      by_cases hx : x.2 = c <;> simp [List.filter_cons, hx]

/-- Stability of the score sort: for every score, the entries carrying it
appear in the sorted output in their insertion order. -/
theorem sortSuggestions_filter (c : ℚ) :
    ∀ l, (sortSuggestions l).filter (fun e => decide (e.2 = c)) =
      l.filter (fun e => decide (e.2 = c)) := by
  intro l
  induction l with
  | nil => rfl
  | cons x xs ih =>
    simp only [sortSuggestions, filter_insertDesc, ih, List.filter_cons]
    by_cases hx : x.2 = c <;> simp [hx]

/-- `round2` is monotone. -/
theorem round2_mono {q r : ℚ} (h : q ≤ r) : round2 q ≤ round2 r := by
  unfold round2
  have hf : (⌊q * 100 + 1 / 2⌋ : ℤ) ≤ ⌊r * 100 + 1 / 2⌋ :=
    Int.floor_le_floor (by linarith)
  have hf2 : ((⌊q * 100 + 1 / 2⌋ : ℤ) : ℚ) ≤ ((⌊r * 100 + 1 / 2⌋ : ℤ) : ℚ) := by
    exact_mod_cast hf
  linarith

/-- Within one section, a later (higher) rank never scores above an earlier
(lower) rank: the priority multiplier is non-increasing in the rank and the
other factors are shared and non-negative. -/
theorem suggestionScore_anti (det : GapEntry) (i j : Nat) (hij : i ≤ j)
    (hmr : 0 ≤ 1 - det.completeness) :
    suggestionScore det j ≤ suggestionScore det i := by
  unfold suggestionScore
  apply round2_mono
  have hA : (0 : ℚ) ≤ (1 - det.completeness) * 100 := by
    have : (0 : ℚ) ≤ 100 := by norm_num
    exact mul_nonneg hmr this
  have hF : (0 : ℚ) ≤ 1 + (det.missing_fields.length : ℚ) * (1 / 20) := by positivity
  have hpm : max (1 / 2 : ℚ) (1 - (j : ℚ) * (1 / 10)) ≤
      max (1 / 2 : ℚ) (1 - (i : ℚ) * (1 / 10)) := by
    apply max_le_max le_rfl
    have hcast : (i : ℚ) ≤ (j : ℚ) := by exact_mod_cast hij
    linarith
  exact mul_le_mul_of_nonneg_right (mul_le_mul_of_nonneg_left hpm hA) hF

/-- Evaluating `suggest_modules` once the gap analysis is known to succeed. -/
theorem suggestModules_eval (P : AIPlanner) (profile : Profile)
    (history : List String) (gaps : List (String × GapEntry))
    (hg : analyzeGaps P profile = .ok gaps) :
    suggestModules P profile history =
      .ok (sortSuggestions (rawSuggestions (history.map lowerStr) gaps)) := by
  simp only [suggestModules, hg, exceptBind_ok]

/-- A successful `suggest_modules` run factors through a successful gap
analysis. -/
theorem suggestModules_ok_inv (P : AIPlanner) (profile : Profile)
    (history : List String) (l : List (String × ℚ))
    (hok : suggestModules P profile history = .ok l) :
    ∃ gaps, analyzeGaps P profile = .ok gaps ∧
      l = sortSuggestions (rawSuggestions (history.map lowerStr) gaps) := by
  rcases hg : analyzeGaps P profile with e | gaps
  · rw [suggestModules, hg, exceptBind_error] at hok
    cases hok
  · rw [suggestModules_eval P profile history gaps hg] at hok
    exact ⟨gaps, rfl, (Except.ok.inj hok).symm⟩

/-- Inversion of the per-section candidate loop: every emitted suggestion
comes from a catalog candidate at some rank, was not in the executed set, and
carries the section's score at that rank. -/
theorem mem_sectionSuggestions_inv (executed : List String) (s : String)
    (det : GapEntry) (e : String × ℚ) (he : e ∈ sectionSuggestions executed s det) :
    ∃ rank, (rank, e.1) ∈ ((lookupStr s section_modules).getD []).enum ∧
      lowerStr e.1 ∉ executed ∧ e.2 = suggestionScore det rank := by
  simp only [sectionSuggestions] at he
  by_cases h1 : ((lookupStr s section_modules).getD []).isEmpty = true
  · rw [if_pos h1] at he
    cases he
  · rw [if_neg h1] at he
    by_cases h2 : (1 - det.completeness : ℚ) ≤ 0
    · rw [if_pos h2] at he
      cases he
    · rw [if_neg h2] at he
      obtain ⟨p, hp, hpe⟩ := List.mem_filterMap.1 he
      by_cases h3 : lowerStr p.2 ∈ executed
      · rw [if_pos h3] at hpe
        cases hpe
      · rw [if_neg h3] at hpe
        rw [Option.some.injEq] at hpe
        subst hpe
        exact ⟨p.1, by simpa using hp, h3, rfl⟩

/-! ### Concrete suggestion-engine scenario used by witnesses: one "contact"
section with required fields `emails`, `phones`, `usernames`, of which only
`emails` is populated (missing ratio 2/3, two missing fields, single catalog
candidate at rank 0). -/

/-- Concrete run of `suggest_modules` on the contact scenario with empty
history: one suggestion, scored `round(220/3, 2) = 73.33`. -/
theorem contactScenarioEval :
    suggestModules ⟨[("contact", ["emails", "phones", "usernames"])]⟩
        [("contact", PyVal.dict [("emails", PyVal.list [PyVal.str "a@b.c"])])] [] =
      .ok [("Contact_Network_Map", (7333 : ℚ) / 100)] := by
  have hg : analyzeGaps ⟨[("contact", ["emails", "phones", "usernames"])]⟩
      [("contact", PyVal.dict [("emails", PyVal.list [PyVal.str "a@b.c"])])] =
      .ok [("contact", ⟨["phones", "usernames"],
        max 0 (1 - ((2 : Nat) : ℚ) / ((3 : Nat) : ℚ))⟩)] := rfl
  have hms : max (0 : ℚ) (1 - ((2 : Nat) : ℚ) / ((3 : Nat) : ℚ)) = 1 / 3 := by
    rw [max_eq_right] <;> norm_num
  rw [hms] at hg
  have hscore : suggestionScore ⟨["phones", "usernames"], 1 / 3⟩ 0 = (7333 : ℚ) / 100 := by
    unfold suggestionScore round2
    have harg : ((1 : ℚ) - (⟨["phones", "usernames"], 1 / 3⟩ : GapEntry).completeness) * 100 *
        max (1 / 2 : ℚ) (1 - ((0 : Nat) : ℚ) * (1 / 10)) *
        (1 + (((⟨["phones", "usernames"], 1 / 3⟩ : GapEntry).missing_fields.length : ℚ)) *
          (1 / 20)) * 100 + 1 / 2 = 44003 / 6 := by
      rw [max_eq_right (by norm_num : (1 / 2 : ℚ) ≤ 1 - ((0 : Nat) : ℚ) * (1 / 10))]
      norm_num
    rw [harg]
    rw [show ((44003 : ℚ) / 6) = ((44003 : ℤ) : ℚ) / ((6 : ℕ) : ℚ) by norm_num,
      Rat.floor_intCast_div_natCast]
    norm_num
  simp only [suggestModules, hg, exceptBind_ok, rawSuggestions, List.flatMap_cons,
    List.flatMap_nil, List.append_nil, sectionSuggestions]
  rw [if_neg (by decide), if_neg (by norm_num)]
  show Except.ok [("Contact_Network_Map",
    suggestionScore ⟨["phones", "usernames"], 1 / 3⟩ 0)] =
    Except.ok [("Contact_Network_Map", (7333 : ℚ) / 100)]
  rw [hscore]

/-- Concrete run of the contact scenario with the module already in history
(upper-cased, exercising the case-insensitive comparison): no suggestions. -/
theorem contactScenarioHistoryEval :
    suggestModules ⟨[("contact", ["emails", "phones", "usernames"])]⟩
        [("contact", PyVal.dict [("emails", PyVal.list [PyVal.str "a@b.c"])])]
        ["CONTACT_NETWORK_MAP"] = .ok [] := by
  have hg : analyzeGaps ⟨[("contact", ["emails", "phones", "usernames"])]⟩
      [("contact", PyVal.dict [("emails", PyVal.list [PyVal.str "a@b.c"])])] =
      .ok [("contact", ⟨["phones", "usernames"],
        max 0 (1 - ((2 : Nat) : ℚ) / ((3 : Nat) : ℚ))⟩)] := rfl
  have hms : max (0 : ℚ) (1 - ((2 : Nat) : ℚ) / ((3 : Nat) : ℚ)) = 1 / 3 := by
    rw [max_eq_right] <;> norm_num
  rw [hms] at hg
  simp only [suggestModules, hg, exceptBind_ok, rawSuggestions, List.flatMap_cons,
    List.flatMap_nil, List.append_nil, sectionSuggestions]
  rw [if_neg (by decide), if_neg (by norm_num)]
  rfl

/-! ### Claims C7, C8, C9, C10 -/

/-- C7, counterexample: in the contact scenario the emitted score is the
rounded value 73.33, which differs from the claim's exact product
missing_ratio × 100 × priority_multiplier(0) × field_pressure = 220/3. -/
theorem c7_counterexample_score_not_exact_product :
    suggestModules ⟨[("contact", ["emails", "phones", "usernames"])]⟩
        [("contact", PyVal.dict [("emails", PyVal.list [PyVal.str "a@b.c"])])] [] =
      .ok [("Contact_Network_Map", (7333 : ℚ) / 100)] ∧
    (7333 : ℚ) / 100 ≠
      (2 / 3 : ℚ) * 100 * max (1 / 2 : ℚ) (1 - ((0 : Nat) : ℚ) * (1 / 10)) *
        (1 + ((2 : Nat) : ℚ) * (1 / 20)) := by
  refine ⟨contactScenarioEval, ?_⟩
  rw [max_eq_right (by norm_num : (1 / 2 : ℚ) ≤ 1 - ((0 : Nat) : ℚ) * (1 / 10))]
  norm_num

/-- C7, amended: every suggestion emitted by `suggest_modules` carries score
`round(missing_ratio × 100 × priority_multiplier(rank) × field_pressure, 2)`
for its section's gap entry and its rank in the section's candidate list. -/
theorem c7_suggestion_score_formula (P : AIPlanner) (profile : Profile)
    (history : List String) (l : List (String × ℚ))
    (hok : suggestModules P profile history = .ok l) :
    ∀ e ∈ l, ∃ gaps s det rank,
      analyzeGaps P profile = .ok gaps ∧ (s, det) ∈ gaps ∧
      (rank, e.1) ∈ ((lookupStr s section_modules).getD []).enum ∧
      e.2 = round2 ((1 - det.completeness) * 100 *
        max (1 / 2 : ℚ) (1 - (rank : ℚ) * (1 / 10)) *
        (1 + (det.missing_fields.length : ℚ) * (1 / 20))) := by
  intro e he
  obtain ⟨gaps, hg, hl⟩ := suggestModules_ok_inv P profile history l hok
  subst hl
  rw [mem_sortSuggestions] at he
  obtain ⟨g, hgmem, hsec⟩ := List.mem_flatMap.1 he
  obtain ⟨rank, hrank, hnot, hscore⟩ := mem_sectionSuggestions_inv _ _ _ _ hsec
  exact ⟨gaps, g.1, g.2, rank, hg, by rwa [Prod.mk.eta], hrank, hscore⟩

/-- C7, witness: the amended formula at the contact scenario. -/
theorem c7_suggestion_score_formula_witness :
    (suggestModules ⟨[("contact", ["emails", "phones", "usernames"])]⟩
        [("contact", PyVal.dict [("emails", PyVal.list [PyVal.str "a@b.c"])])] [] =
      .ok [("Contact_Network_Map", (7333 : ℚ) / 100)]) ∧
    (∀ e ∈ ([("Contact_Network_Map", (7333 : ℚ) / 100)] : List (String × ℚ)),
      ∃ gaps s det rank,
        analyzeGaps ⟨[("contact", ["emails", "phones", "usernames"])]⟩
          [("contact", PyVal.dict [("emails", PyVal.list [PyVal.str "a@b.c"])])] = .ok gaps ∧
        (s, det) ∈ gaps ∧
        (rank, e.1) ∈ ((lookupStr s section_modules).getD []).enum ∧
        e.2 = round2 ((1 - det.completeness) * 100 *
          max (1 / 2 : ℚ) (1 - (rank : ℚ) * (1 / 10)) *
          (1 + (det.missing_fields.length : ℚ) * (1 / 20)))) :=
  ⟨contactScenarioEval, c7_suggestion_score_formula _ _ _ _ contactScenarioEval⟩

/-- C8: the suggestion list is sorted by score descending; equal scores keep
their insertion (iteration) order, stated as preservation of the per-score
sublists of the unsorted suggestion stream; and within a section, a lower
rank never scores below a higher rank. -/
theorem c8_suggestions_sorted_descending_stably (P : AIPlanner) (profile : Profile)
    (history : List String) (gaps : List (String × GapEntry)) (l : List (String × ℚ))
    (hg : analyzeGaps P profile = .ok gaps)
    (hok : suggestModules P profile history = .ok l) :
    List.Pairwise (fun p q : String × ℚ => q.2 ≤ p.2) l ∧
    (∀ c : ℚ, l.filter (fun e => decide (e.2 = c)) =
      (rawSuggestions (history.map lowerStr) gaps).filter (fun e => decide (e.2 = c))) ∧
    (∀ det : GapEntry, ∀ i j : Nat, i ≤ j → 0 ≤ 1 - det.completeness →
      suggestionScore det j ≤ suggestionScore det i) := by
  have hl : l = sortSuggestions (rawSuggestions (history.map lowerStr) gaps) := by
    rw [suggestModules_eval P profile history gaps hg] at hok
    exact (Except.ok.inj hok).symm
  subst hl
  exact ⟨sortSuggestions_sorted _, fun c => sortSuggestions_filter c _,
    fun det i j hij hmr => suggestionScore_anti det i j hij hmr⟩

/-- C8, witness: the sortedness/stability/rank-monotonicity conclusion at the
contact scenario. -/
theorem c8_suggestions_sorted_witness :
    (analyzeGaps ⟨[("contact", ["emails", "phones", "usernames"])]⟩
        [("contact", PyVal.dict [("emails", PyVal.list [PyVal.str "a@b.c"])])] =
      .ok [("contact", ⟨["phones", "usernames"],
        max 0 (1 - ((2 : Nat) : ℚ) / ((3 : Nat) : ℚ))⟩)]) ∧
    (suggestModules ⟨[("contact", ["emails", "phones", "usernames"])]⟩
        [("contact", PyVal.dict [("emails", PyVal.list [PyVal.str "a@b.c"])])] [] =
      .ok [("Contact_Network_Map", (7333 : ℚ) / 100)]) ∧
    (List.Pairwise (fun p q : String × ℚ => q.2 ≤ p.2)
        ([("Contact_Network_Map", (7333 : ℚ) / 100)] : List (String × ℚ)) ∧
      (∀ c : ℚ, ([("Contact_Network_Map", (7333 : ℚ) / 100)] : List (String × ℚ)).filter
          (fun e => decide (e.2 = c)) =
        (rawSuggestions (([] : List String).map lowerStr)
          [("contact", ⟨["phones", "usernames"],
            max 0 (1 - ((2 : Nat) : ℚ) / ((3 : Nat) : ℚ))⟩)]).filter
          (fun e => decide (e.2 = c))) ∧
      (∀ det : GapEntry, ∀ i j : Nat, i ≤ j → 0 ≤ 1 - det.completeness →
        suggestionScore det j ≤ suggestionScore det i)) := by
  have hg : analyzeGaps ⟨[("contact", ["emails", "phones", "usernames"])]⟩
      [("contact", PyVal.dict [("emails", PyVal.list [PyVal.str "a@b.c"])])] =
      .ok [("contact", ⟨["phones", "usernames"],
        max 0 (1 - ((2 : Nat) : ℚ) / ((3 : Nat) : ℚ))⟩)] := rfl
  exact ⟨hg, contactScenarioEval,
    c8_suggestions_sorted_descending_stably _ _ _ _ _ hg contactScenarioEval⟩

/-- C9: no suggestion's module name, lower-cased, equals the lower-casing of
any name in the history. -/
theorem c9_history_modules_never_suggested (P : AIPlanner) (profile : Profile)
    (history : List String) (l : List (String × ℚ))
    (hok : suggestModules P profile history = .ok l) :
    ∀ e ∈ l, lowerStr e.1 ∉ history.map lowerStr := by
  intro e he
  obtain ⟨gaps, hg, hl⟩ := suggestModules_ok_inv P profile history l hok
  subst hl
  rw [mem_sortSuggestions] at he
  obtain ⟨g, hgmem, hsec⟩ := List.mem_flatMap.1 he
  obtain ⟨rank, hrank, hnot, hscore⟩ := mem_sectionSuggestions_inv _ _ _ _ hsec
  exact hnot

/-- C9, witness: with the lone candidate already in history (upper-cased),
the run succeeds and suggests nothing. -/
theorem c9_history_modules_witness :
    (suggestModules ⟨[("contact", ["emails", "phones", "usernames"])]⟩
        [("contact", PyVal.dict [("emails", PyVal.list [PyVal.str "a@b.c"])])]
        ["CONTACT_NETWORK_MAP"] = .ok []) ∧
    (∀ e ∈ ([] : List (String × ℚ)),
      lowerStr e.1 ∉ (["CONTACT_NETWORK_MAP"] : List String).map lowerStr) :=
  ⟨contactScenarioHistoryEval,
    c9_history_modules_never_suggested _ _ _ _ contactScenarioHistoryEval⟩

/-- The state-threaded gap analysis returns the profile unchanged and agrees
with the pure embedding. -/
theorem analyzeGapsListSt_eq (profile : Profile) :
    ∀ reqs, analyzeGapsListSt profile reqs = (analyzeGapsList profile reqs, profile) := by
  intro reqs
  induction reqs with
  | nil => rfl
  | cons hd rest ih =>
    obtain ⟨s, req⟩ := hd
    simp only [analyzeGapsListSt, profileGetSt, analyzeGapsList, ih]
    by_cases hpay : (profileGet profile s).isNone = true
    · simp only [hpay, if_true, exceptBind_ok]
      rcases hr : analyzeGapsList profile rest with e | entries <;> simp [hr]
    · simp only [hpay, if_false, Bool.false_eq_true]
      rcases hc : collectMissing (profileGet profile s) req with e | miss
      · simp [hc]
      · simp only [hc, exceptBind_ok]
        rcases hr : analyzeGapsList profile rest with e | entries <;> simp [hr]

/-- C10: neither `analyze_gaps` nor `suggest_modules` mutates the profile:
the state-threaded embeddings, which pass the profile through every access
the Python code makes (`profile.get`, `section_payload.get` — all reads),
return it unchanged alongside the pure results. -/
theorem c10_planner_reads_do_not_mutate_profile (P : AIPlanner) (profile : Profile)
    (history : List String) :
    analyzeGapsSt P profile = (analyzeGaps P profile, profile) ∧
    suggestModulesSt P profile history = (suggestModules P profile history, profile) := by
  have h1 : analyzeGapsSt P profile = (analyzeGaps P profile, profile) :=
    analyzeGapsListSt_eq profile P.section_requirements
  refine ⟨h1, ?_⟩
  rcases hg : analyzeGaps P profile with e | gaps
  · rw [suggestModulesSt, h1, hg]
    simp [suggestModules, hg]
  · rw [suggestModulesSt, h1, hg]
    simp [suggestModules_eval P profile history gaps hg]

/-! ### Dependency resolver: ordering and DFS lemmas -/

/-- Membership through the stable ascending string insertion. -/
theorem mem_insertStrAsc (x a : String) :
    ∀ l, a ∈ insertStrAsc x l ↔ a = x ∨ a ∈ l := by
  intro l
  induction l with
  | nil => simp [insertStrAsc]
  | cons y ys ih =>
    simp only [insertStrAsc]
    by_cases h : strLt y x = true
    · rw [if_pos h]
      simp only [List.mem_cons, ih]
      tauto
    · rw [if_neg h]
      simp only [List.mem_cons]

/-- Membership through the string sort. -/
theorem mem_sortStrings (a : String) : ∀ l, a ∈ sortStrings l ↔ a ∈ l := by
  intro l
  induction l with
  | nil => simp [sortStrings]
  | cons x xs ih => simp [sortStrings, mem_insertStrAsc, ih]

/-- `_order_modules` permutes membership: it reorders its input set. -/
theorem orderModules_mem (modules : List String) (x : String) :
    x ∈ orderModules modules ↔ x ∈ modules := by
  unfold orderModules
  rw [List.mem_append, mem_sortStrings]
  constructor
  · rintro (h | h)
    · exact of_decide_eq_true (List.mem_filter.1 h).2
    · exact (List.mem_filter.1 h).1
  · intro h
    by_cases hp : x ∈ MODULE_PRIORITY
    · exact Or.inl (List.mem_filter.2 ⟨hp, decide_eq_true h⟩)
    · exact Or.inr (List.mem_filter.2 ⟨h, decide_eq_true hp⟩)

/-- Appending a node whose in-`expanded` dependencies are already present
preserves dependency-respecting order. -/
theorem depOrdered_append (table : List (String × List String))
    (expanded l : List String) (m : String)
    (hl : DepOrdered table expanded l)
    (hm : ∀ d ∈ depLookup table m, d ∈ expanded → d ∈ l) :
    DepOrdered table expanded (l ++ [m]) := by
  intro k hk d hd hexp
  rw [List.length_append, List.length_singleton] at hk
  by_cases hklt : k < l.length
  · have hget : (l ++ [m]).get ⟨k, by simp; omega⟩ = l.get ⟨k, hklt⟩ :=
      List.get_append k hklt
    rw [hget] at hd
    rw [List.take_append_of_le_length (le_of_lt hklt)]
    exact hl k hklt d hd hexp
  · have hkeq : k = l.length := by omega
    subst hkeq
    have hget : (l ++ [m]).get ⟨l.length, by simp⟩ = m := by
      rw [List.get_append_right] <;> simp
    rw [hget] at hd
    rw [List.take_left]
    exact hm d hd hexp

/-- An element of a prefix has its first occurrence inside that prefix. -/
theorem indexOf_lt_of_mem_take {d : String} :
    ∀ (l : List String) (k : Nat), d ∈ l.take k → l.indexOf d < k := by
  intro l
  induction l with
  | nil => intro k h; simp at h
  | cons x xs ih =>
    intro k h
    cases k with
    | zero => simp at h
    | succ k1 =>
      rw [List.take_succ_cons] at h
      by_cases hdx : d = x
      · subst hdx
        simp [List.indexOf_cons_self]
      · rcases List.mem_cons.1 h with heq | h1
        · exact absurd heq hdx
        · rw [List.indexOf_cons_ne _ (Ne.symm hdx)]
          exact Nat.succ_lt_succ (ih k1 h1)

/-- Pushing a not-yet-stacked expanded module onto the stack strictly
decreases the fuel requirement. -/
theorem missCount_push_lt (expanded : List String) (st : DfsState) (m : String)
    (hm : m ∈ expanded) (hnv : m ∉ st.visiting) :
    missCount expanded ⟨st.ordered, m :: st.visiting, st.visited⟩ <
      missCount expanded st := by
  unfold missCount
  have hsplit : (expanded.filter fun x => decide (x ∉ m :: st.visiting)) =
      (expanded.filter fun x => decide (x ∉ st.visiting)).filter
        fun x => decide (x ≠ m) := by
    rw [List.filter_filter]
    apply List.filter_congr
    intro x _
    by_cases h1 : x = m
    · subst h1
      simp [hnv]
    · by_cases h2 : x ∈ st.visiting <;> simp [h1, h2]
  rw [hsplit]
  apply List.length_filter_lt_length_iff_exists.2
  exact ⟨m, List.mem_filter.2 ⟨hm, decide_eq_true hnv⟩, by simp⟩

/-- Specification of the dependency loop (`visitSeq`) given a specification
of one `visit` call at the same fuel: the invariant is preserved, the stack
is restored, output and visited set only grow, and every visited-list node
ends up finalized. -/
theorem visitSeq_spec_aux (table : List (String × List String))
    (expanded : List String) (depth : String → Nat) (n : Nat)
    (IH : ∀ (st : DfsState) (m : String), m ∈ expanded →
      DfsInv table expanded st →
      (∀ v ∈ st.visiting, depth m < depth v) →
      missCount expanded st < n →
      DfsInv table expanded (visitF table expanded n st m) ∧
      (visitF table expanded n st m).visiting = st.visiting ∧
      (∀ x ∈ st.ordered, x ∈ (visitF table expanded n st m).ordered) ∧
      (∀ x ∈ st.visited, x ∈ (visitF table expanded n st m).visited) ∧
      m ∈ (visitF table expanded n st m).visited) :
    ∀ (ds : List String) (st : DfsState),
      (∀ d ∈ ds, d ∈ expanded) →
      DfsInv table expanded st →
      (∀ d ∈ ds, ∀ v ∈ st.visiting, depth d < depth v) →
      missCount expanded st < n →
      DfsInv table expanded (visitSeq (visitF table expanded n) ds st) ∧
      (visitSeq (visitF table expanded n) ds st).visiting = st.visiting ∧
      (∀ x ∈ st.ordered, x ∈ (visitSeq (visitF table expanded n) ds st).ordered) ∧
      (∀ x ∈ st.visited, x ∈ (visitSeq (visitF table expanded n) ds st).visited) ∧
      (∀ d ∈ ds, d ∈ (visitSeq (visitF table expanded n) ds st).visited) := by
  intro ds
  induction ds with
  | nil =>
    intro st _ hinv _ _
    exact ⟨hinv, rfl, fun x h => h, fun x h => h, by simp⟩
  | cons d ds ihds =>
    intro st hexp hinv hdeps hfuel
    obtain ⟨hinv1, hvis1, hord1, hvtd1, hdv1⟩ :=
      IH st d (hexp d (List.mem_cons_self _ _)) hinv
        (hdeps d (List.mem_cons_self _ _)) hfuel
    have hfuel1 : missCount expanded (visitF table expanded n st d) < n := by
      unfold missCount
      rw [hvis1]
      exact hfuel
    have hdeps1 : ∀ d1 ∈ ds, ∀ v ∈ (visitF table expanded n st d).visiting,
        depth d1 < depth v := by
      rw [hvis1]
      exact fun d1 hd1 => hdeps d1 (List.mem_cons_of_mem _ hd1)
    obtain ⟨hinv2, hvis2, hord2, hvtd2, hall2⟩ :=
      ihds (visitF table expanded n st d)
        (fun d1 hd1 => hexp d1 (List.mem_cons_of_mem _ hd1)) hinv1 hdeps1 hfuel1
    have hstep : visitSeq (visitF table expanded n) (d :: ds) st =
        visitSeq (visitF table expanded n) ds (visitF table expanded n st d) := rfl
    rw [hstep]
    refine ⟨hinv2, hvis2.trans hvis1, fun x h => hord2 x (hord1 x h),
      fun x h => hvtd2 x (hvtd1 x h), fun d1 hd1 => ?_⟩
    rcases List.mem_cons.1 hd1 with rfl | hd1'
    · exact hvtd2 d1 hdv1
    · exact hall2 d1 hd1'

/-- Specification of one `visit` call, for a dependency table certified
acyclic by a depth rank: the invariant is preserved, the stack is restored,
the output and visited set only grow, and the visited node is finalized.
The depth hypothesis on the stack rules out the cycle guard. -/
theorem visitF_spec (table : List (String × List String)) (expanded : List String)
    (depth : String → Nat)
    (hdep : ∀ m d, d ∈ depLookup table m → depth d < depth m) :
    ∀ (fuel : Nat) (st : DfsState) (m : String),
      m ∈ expanded →
      DfsInv table expanded st →
      (∀ v ∈ st.visiting, depth m < depth v) →
      missCount expanded st < fuel →
      DfsInv table expanded (visitF table expanded fuel st m) ∧
      (visitF table expanded fuel st m).visiting = st.visiting ∧
      (∀ x ∈ st.ordered, x ∈ (visitF table expanded fuel st m).ordered) ∧
      (∀ x ∈ st.visited, x ∈ (visitF table expanded fuel st m).visited) ∧
      m ∈ (visitF table expanded fuel st m).visited := by
  intro fuel
  induction fuel with
  | zero =>
    intro st m _ _ _ hfuel
    exact absurd hfuel (Nat.not_lt_zero _)
  | succ n IHn =>
    intro st m hm hinv hdepthv hfuel
    by_cases hvst : m ∈ st.visited
    · have heq : visitF table expanded (n + 1) st m = st := by
        simp only [visitF]
        rw [if_pos hvst]
      rw [heq]
      exact ⟨hinv, rfl, fun x h => h, fun x h => h, hvst⟩
    · by_cases hvisiting : m ∈ st.visiting
      · exact absurd (hdepthv m hvisiting) (lt_irrefl _)
      · have heq : visitF table expanded (n + 1) st m =
            ⟨(visitSeq (visitF table expanded n)
                ((depLookup table m).filter fun d => decide (d ∈ expanded))
                ⟨st.ordered, m :: st.visiting, st.visited⟩).ordered ++ [m],
              (visitSeq (visitF table expanded n)
                ((depLookup table m).filter fun d => decide (d ∈ expanded))
                ⟨st.ordered, m :: st.visiting, st.visited⟩).visiting.erase m,
              m :: (visitSeq (visitF table expanded n)
                ((depLookup table m).filter fun d => decide (d ∈ expanded))
                ⟨st.ordered, m :: st.visiting, st.visited⟩).visited⟩ := by
          simp only [visitF]
          rw [if_neg hvst, if_neg hvisiting]
      -- specification of the dependency loop
        have hinv1 : DfsInv table expanded ⟨st.ordered, m :: st.visiting, st.visited⟩ := by
          refine ⟨hinv.nodup, hinv.mem_iff, fun x hx => ?_, hinv.sub, hinv.ord⟩
          rcases List.mem_cons.1 hx with rfl | hx'
          · exact hvst
          · exact hinv.disj x hx'
        have hexp_ds : ∀ d ∈ (depLookup table m).filter fun d => decide (d ∈ expanded),
            d ∈ expanded := fun d hd => of_decide_eq_true (List.mem_filter.1 hd).2
        have hdep_ds : ∀ d ∈ (depLookup table m).filter fun d => decide (d ∈ expanded),
            ∀ v ∈ (⟨st.ordered, m :: st.visiting, st.visited⟩ : DfsState).visiting,
              depth d < depth v := by
          intro d hd v hv
          have hdm : depth d < depth m := hdep m d (List.mem_filter.1 hd).1
          rcases List.mem_cons.1 hv with rfl | hv'
          · exact hdm
          · exact lt_trans hdm (hdepthv v hv')
        have hfuel1 : missCount expanded ⟨st.ordered, m :: st.visiting, st.visited⟩ < n := by
          have hlt := missCount_push_lt expanded st m hm hvisiting
          omega
        obtain ⟨hinv2, hvis2, hord2, hvtd2, hall2⟩ :=
          visitSeq_spec_aux table expanded depth n IHn
            ((depLookup table m).filter fun d => decide (d ∈ expanded))
            ⟨st.ordered, m :: st.visiting, st.visited⟩ hexp_ds hinv1 hdep_ds hfuel1
        rw [heq]
        have hvise : (visitSeq (visitF table expanded n)
            ((depLookup table m).filter fun d => decide (d ∈ expanded))
            ⟨st.ordered, m :: st.visiting, st.visited⟩).visiting.erase m = st.visiting := by
          rw [hvis2]
          exact List.erase_cons_head m st.visiting
        have hmset2 : m ∈ (visitSeq (visitF table expanded n)
            ((depLookup table m).filter fun d => decide (d ∈ expanded))
            ⟨st.ordered, m :: st.visiting, st.visited⟩).visiting := by
          rw [hvis2]
          exact List.mem_cons_self _ _
        have hmnotvtd2 : m ∉ (visitSeq (visitF table expanded n)
            ((depLookup table m).filter fun d => decide (d ∈ expanded))
            ⟨st.ordered, m :: st.visiting, st.visited⟩).visited :=
          hinv2.disj m hmset2
        have hmnotord2 : m ∉ (visitSeq (visitF table expanded n)
            ((depLookup table m).filter fun d => decide (d ∈ expanded))
            ⟨st.ordered, m :: st.visiting, st.visited⟩).ordered :=
          fun hmem => hmnotvtd2 ((hinv2.mem_iff m).1 hmem)
        refine ⟨⟨?_, ?_, ?_, ?_, ?_⟩, hvise, ?_, ?_, List.mem_cons_self _ _⟩
        · rw [List.nodup_append]
          exact ⟨hinv2.nodup, List.nodup_singleton m,
            fun x hx hxm => hmnotord2 ((List.mem_singleton.1 hxm) ▸ hx)⟩
        · intro x
          rw [List.mem_append, List.mem_singleton, List.mem_cons, hinv2.mem_iff x]
          tauto
        · intro x hx
          have hx' : x ∈ st.visiting := by
            rw [hvise] at hx
            exact hx
          have hxm : x ≠ m := fun hxeq => hvisiting (hxeq ▸ hx')
          have hxv : x ∉ (visitSeq (visitF table expanded n)
              ((depLookup table m).filter fun d => decide (d ∈ expanded))
              ⟨st.ordered, m :: st.visiting, st.visited⟩).visited :=
            hinv2.disj x (by rw [hvis2]; exact List.mem_cons_of_mem _ hx')
          rw [List.mem_cons]
          rintro (rfl | hmem)
          · exact hxm rfl
          · exact hxv hmem
        · intro x hx
          rcases List.mem_append.1 hx with hx' | hx'
          · exact hinv2.sub x hx'
          · exact (List.mem_singleton.1 hx') ▸ hm
        · apply depOrdered_append table expanded _ m hinv2.ord
          intro d hd hdexp
          have hdds : d ∈ (depLookup table m).filter fun d => decide (d ∈ expanded) :=
            List.mem_filter.2 ⟨hd, decide_eq_true hdexp⟩
          exact (hinv2.mem_iff d).2 (hall2 d hdds)
        · exact fun x h => List.mem_append_left _ (hord2 x h)
        · exact fun x h => List.mem_cons_of_mem _ (hvtd2 x h)

/-- Full specification of `_build_execution_order` for a dependency table
certified acyclic by a depth rank: the output is duplicate-free, contains
exactly the dependency closure of the selection, and respects the table. -/
theorem buildExecutionOrderWith_spec (table : List (String × List String))
    (depth : String → Nat)
    (hdep : ∀ m d, d ∈ depLookup table m → depth d < depth m)
    (selected : List String) :
    (buildExecutionOrderWith table selected).Nodup ∧
    (∀ x, x ∈ buildExecutionOrderWith table selected ↔
      x ∈ expandModules table selected) ∧
    DepOrdered table (expandModules table selected)
      (buildExecutionOrderWith table selected) := by
  have hinit : DfsInv table (expandModules table selected) ⟨[], [], []⟩ := by
    refine ⟨List.nodup_nil, fun x => Iff.rfl, fun x hx => absurd hx (List.not_mem_nil x),
      fun x hx => absurd hx (List.not_mem_nil x), ?_⟩
    intro k hk d hd hexp
    simp at hk
  have hfuel : missCount (expandModules table selected) ⟨[], [], []⟩ <
      (expandModules table selected).length + 1 := by
    unfold missCount
    have hpred : ∀ x ∈ expandModules table selected,
        (fun x => decide (x ∉ ((⟨[], [], []⟩ : DfsState)).visiting)) x = true := by
      intro x _
      simp
    rw [List.filter_eq_self.2 hpred]
    omega
  obtain ⟨hinv, hvis, hord, hvtd, hall⟩ :=
    visitSeq_spec_aux table (expandModules table selected) depth
      ((expandModules table selected).length + 1)
      (visitF_spec table (expandModules table selected) depth hdep _)
      (orderModules (expandModules table selected)) ⟨[], [], []⟩
      (fun d hd => (orderModules_mem _ d).1 hd) hinit
      (fun d _ v hv => absurd hv (List.not_mem_nil v)) hfuel
  have hbuild : buildExecutionOrderWith table selected =
      (visitSeq (visitF table (expandModules table selected)
        ((expandModules table selected).length + 1))
        (orderModules (expandModules table selected)) ⟨[], [], []⟩).ordered := rfl
  rw [hbuild]
  refine ⟨hinv.nodup, fun x => ⟨fun hx => hinv.sub x hx, fun hx => ?_⟩, hinv.ord⟩
  exact (hinv.mem_iff x).2 (hall x ((orderModules_mem _ x).2 hx))

/-- The orchestrator's literal dependency table is acyclic: `orchDepth`
strictly decreases along every dependency edge. -/
theorem orchDepth_dep : ∀ m d, d ∈ depLookup orchestratorDeps m →
    orchDepth d < orchDepth m := by
  intro m d hd
  by_cases h1 : m = "Recon-ng"
  · subst h1
    rw [show depLookup orchestratorDeps "Recon-ng" = ["theHarvester"] from rfl] at hd
    rw [List.mem_singleton] at hd
    subst hd
    decide
  by_cases h2 : m = "SpiderFoot"
  · subst h2
    rw [show depLookup orchestratorDeps "SpiderFoot" =
      ["theHarvester", "Recon-ng"] from rfl] at hd
    rcases List.mem_cons.1 hd with rfl | hd'
    · decide
    · rw [List.mem_singleton] at hd'
      subst hd'
      decide
  by_cases h3 : m = "Photon"
  · subst h3
    rw [show depLookup orchestratorDeps "Photon" = ["theHarvester"] from rfl] at hd
    rw [List.mem_singleton] at hd
    subst hd
    decide
  by_cases h4 : m = "Metagoofil"
  · subst h4
    rw [show depLookup orchestratorDeps "Metagoofil" = ["Photon"] from rfl] at hd
    rw [List.mem_singleton] at hd
    subst hd
    decide
  · exfalso
    have hempty : depLookup orchestratorDeps m = [] := by
      simp only [depLookup, orchestratorDeps, lookupStr]
      rw [if_neg h1, if_neg h2, if_neg h3, if_neg h4]
      by_cases h5 : m = "GHunt"
      · rw [if_pos h5]; rfl
      rw [if_neg h5]
      by_cases h6 : m = "Sherlock"
      · rw [if_pos h6]; rfl
      rw [if_neg h6]
      by_cases h7 : m = "Skiptracer"
      · rw [if_pos h7]; rfl
      rw [if_neg h7]
      by_cases h8 : m = "Twint"
      · rw [if_pos h8]; rfl
      rw [if_neg h8]
      by_cases h9 : m = "theHarvester"
      · rw [if_pos h9]; rfl
      rw [if_neg h9]
      rfl
    rw [hempty] at hd
    exact List.not_mem_nil d hd

/-! ### Claims C1 and C3 -/

/-- C1: for the orchestrator's static (acyclic) dependency table, for every
selection, every dependency of an output module that itself appears in the
output appears at an earlier position. -/
theorem c1_execution_order_respects_dependencies (selected : List String)
    (m d : String) (hm : m ∈ buildExecutionOrder selected)
    (hd : d ∈ depLookup orchestratorDeps m)
    (hdin : d ∈ buildExecutionOrder selected) :
    (buildExecutionOrder selected).indexOf d <
      (buildExecutionOrder selected).indexOf m := by
  obtain ⟨hnodup, hmem, hord⟩ :=
    buildExecutionOrderWith_spec orchestratorDeps orchDepth orchDepth_dep selected
  have hbw : buildExecutionOrder selected = buildExecutionOrderWith orchestratorDeps selected := rfl
  rw [← hbw] at hnodup hmem hord
  have him : (buildExecutionOrder selected).indexOf m <
      (buildExecutionOrder selected).length := List.indexOf_lt_length.2 hm
  have hget : (buildExecutionOrder selected).get
      ⟨(buildExecutionOrder selected).indexOf m, him⟩ = m := List.indexOf_get him
  have hdexp : d ∈ expandModules orchestratorDeps selected := (hmem d).1 hdin
  have htake : d ∈ (buildExecutionOrder selected).take
      ((buildExecutionOrder selected).indexOf m) :=
    hord ((buildExecutionOrder selected).indexOf m) him d (by rw [hget]; exact hd) hdexp
  exact indexOf_lt_of_mem_take _ _ htake

/-- C1, witness: selecting SpiderFoot pulls in theHarvester and Recon-ng,
and Recon-ng (a dependency of SpiderFoot present in the output) appears
earlier than SpiderFoot. -/
theorem c1_execution_order_witness :
    "SpiderFoot" ∈ buildExecutionOrder ["SpiderFoot"] ∧
    "Recon-ng" ∈ depLookup orchestratorDeps "SpiderFoot" ∧
    "Recon-ng" ∈ buildExecutionOrder ["SpiderFoot"] ∧
    (buildExecutionOrder ["SpiderFoot"]).indexOf "Recon-ng" <
      (buildExecutionOrder ["SpiderFoot"]).indexOf "SpiderFoot" :=
  ⟨by decide, by decide, by decide,
    c1_execution_order_respects_dependencies ["SpiderFoot"] "SpiderFoot" "Recon-ng"
      (by decide) (by decide) (by decide)⟩

/-- C3: on the cyclic table A→B, B→A the resolver terminates and emits each
of A and B exactly once; and for every selection over the orchestrator's
table, the output lists exactly the modules of the dependency closure, each
exactly once. -/
theorem c3_cycle_tolerant_each_module_once (selected : List String) :
    ((buildExecutionOrderWith [("A", ["B"]), ("B", ["A"])] ["A", "B"]).count "A" = 1 ∧
     (buildExecutionOrderWith [("A", ["B"]), ("B", ["A"])] ["A", "B"]).count "B" = 1) ∧
    (∀ x, x ∈ buildExecutionOrder selected ↔
      x ∈ expandModules orchestratorDeps selected) ∧
    (∀ x ∈ expandModules orchestratorDeps selected,
      (buildExecutionOrder selected).count x = 1) := by
  obtain ⟨hnodup, hmem, hord⟩ :=
    buildExecutionOrderWith_spec orchestratorDeps orchDepth orchDepth_dep selected
  exact ⟨by decide, hmem,
    fun x hx => List.count_eq_one_of_mem hnodup ((hmem x).2 hx)⟩

/-- C3, witness: the closure of selecting only SpiderFoot, with the
exactly-once conclusion discharged at SpiderFoot's pulled-in dependency. -/
theorem c3_cycle_tolerant_witness :
    "Recon-ng" ∈ expandModules orchestratorDeps ["SpiderFoot"] ∧
    (buildExecutionOrder ["SpiderFoot"]).count "Recon-ng" = 1 :=
  ⟨by decide,
    (c3_cycle_tolerant_each_module_once ["SpiderFoot"]).2.2 "Recon-ng" (by decide)⟩

/-! ### Execution engine: helper lemmas -/

/-- Every branch of `_run_module` stamps the record with the module id. -/
theorem runModule_module (env : OrchestratorEnv) (m : String) (p : Profile) :
    ((runModule env m p).1).module = m := by
  rcases hl : loadModuleClass env.importClass m with ⟨_ | impl, sec⟩
  · simp only [runModule, hl]
  · rcases hp : prepareModuleKwargs m p with e | sk
    · simp only [runModule, hl, hp]
    · rcases sk with _ | r
      · rcases hr : impl.run p with ⟨o, pr⟩ | ⟨msg, pr⟩
        · simp only [runModule, hl, hp, hr]
        · simp only [runModule, hl, hp, hr]
      · simp only [runModule, hl, hp]

/-- The execution loop produces one record per module of the order. -/
theorem runModules_length (env : OrchestratorEnv) :
    ∀ (order : List String) (p : Profile),
      (runModules env order p).1.length = order.length := by
  intro order
  induction order with
  | nil => intro p; rfl
  | cons m ms ih =>
    intro p
    simp only [runModules, List.length_cons]
    rw [ih]

/-- The record at position `i` is the one produced by running the `i`-th
module of the order against the profile as left by the first `i` modules. -/
theorem runModules_get?_eq (env : OrchestratorEnv) :
    ∀ (order : List String) (p0 : Profile) (i : Nat) (hi : i < order.length),
      (runModules env order p0).1.get? i =
        some (runModule env (order.get ⟨i, hi⟩)
          (runModules env (order.take i) p0).2).1 := by
  intro order
  induction order with
  | nil => intro p0 i hi; simp at hi
  | cons m ms ih =>
    intro p0 i hi
    cases i with
    | zero => rfl
    | succ i1 =>
      have hi1 : i1 < ms.length := by simpa using hi
      have hstep : (runModules env (m :: ms) p0).1 =
          (runModule env m p0).1 :: (runModules env ms (runModule env m p0).2).1 := rfl
      rw [hstep]
      have htake : (m :: ms).take (i1 + 1) = m :: ms.take i1 := rfl
      rw [htake]
      have hthread : (runModules env (m :: ms.take i1) p0).2 =
          (runModules env (ms.take i1) (runModule env m p0).2).2 := rfl
      rw [hthread]
      exact ih (runModule env m p0).2 i1 hi1

/-- Every position of the order yields its own record, stamped with its
module id. -/
theorem runModules_module_at (env : OrchestratorEnv) (order : List String)
    (p0 : Profile) :
    ∀ (j : Nat) (hj : j < order.length),
      ∃ r, (runModules env order p0).1.get? j = some r ∧
        r.module = order.get ⟨j, hj⟩ :=
  fun j hj => ⟨_, runModules_get?_eq env order p0 j hj,
    runModule_module env (order.get ⟨j, hj⟩) (runModules env (order.take j) p0).2⟩

/-- When every candidate of a registry entry fails to import, the candidate
loop yields nothing. -/
theorem tryCandidates_none (imp : String → String → Option ModuleImpl) :
    ∀ cands : List Candidate,
      (∀ c ∈ cands, imp c.import_path c.class_name = Option.none) →
      tryCandidates imp cands = Option.none := by
  intro cands
  induction cands with
  | nil => intro _; rfl
  | cons c cs ih =>
    intro h
    simp only [tryCandidates, h c (List.mem_cons_self _ _)]
    exact ih fun c1 hc1 => h c1 (List.mem_cons_of_mem _ hc1)

/-! ### Claims C2 and C4 -/

/-- C2: a module whose execution raises yields a `failed` record carrying the
exception's message (the exception does not escape `_run_module`, which is
total), and the loop still produces one record, stamped with its id, for
every module of the order. -/
theorem c2_module_failure_recorded_and_run_continues
    (env : OrchestratorEnv) (order : List String) (p : Profile) (i : Nat)
    (hi : i < order.length) (impl : ModuleImpl) (sec msg : String) (p1 : Profile)
    (hload : loadModuleClass env.importClass (order.get ⟨i, hi⟩) = (some impl, sec))
    (hprep : prepareModuleKwargs (order.get ⟨i, hi⟩)
      (runModules env (order.take i) p).2 = .ok Option.none)
    (hraise : impl.run (runModules env (order.take i) p).2 =
      ExecOutcome.raises msg p1) :
    (runModules env order p).1.length = order.length ∧
    (runModules env order p).1.get? i =
      some ⟨order.get ⟨i, hi⟩, "failed", msg, sec, []⟩ ∧
    (∀ (j : Nat) (hj : j < order.length),
      ∃ r, (runModules env order p).1.get? j = some r ∧
        r.module = order.get ⟨j, hj⟩) := by
  refine ⟨runModules_length env order p, ?_, runModules_module_at env order p⟩
  rw [runModules_get?_eq env order p i hi]
  have hrun : runModule env (order.get ⟨i, hi⟩) (runModules env (order.take i) p).2 =
      (⟨order.get ⟨i, hi⟩, "failed", msg, sec, []⟩, p1) := by
    simp only [runModule, hload, hprep, hraise]
  rw [hrun]

/-- C4: when a module id is absent from the registry or every registered
candidate fails to import, `_run_module` returns an `unavailable` record
without raising and without touching the profile, and the loop still
produces one record, stamped with its id, for every module of any order
containing it. -/
theorem c4_unavailable_module_recorded_and_run_continues
    (env : OrchestratorEnv) (module_id : String)
    (hfail : ∀ c ∈ (lookupStr module_id MODULE_REGISTRY).getD [],
      env.importClass c.import_path c.class_name = Option.none) :
    ∃ sec, (∀ p : Profile, runModule env module_id p =
        (⟨module_id, "unavailable", "Module implementation not found.", sec, []⟩, p)) ∧
      ∀ (order : List String) (p0 : Profile) (i : Nat) (hi : i < order.length),
        order.get ⟨i, hi⟩ = module_id →
        (runModules env order p0).1.length = order.length ∧
        (runModules env order p0).1.get? i =
          some ⟨module_id, "unavailable", "Module implementation not found.", sec, []⟩ ∧
        ∀ (j : Nat) (hj : j < order.length),
          ∃ r, (runModules env order p0).1.get? j = some r ∧
            r.module = order.get ⟨j, hj⟩ := by
  have hload : ∃ sec, loadModuleClass env.importClass module_id = (Option.none, sec) := by
    rcases hlk : lookupStr module_id MODULE_REGISTRY with _ | cands
    · exact ⟨"unknown", by simp only [loadModuleClass, hlk]⟩
    · rcases cands with _ | ⟨c, cs⟩
      · exact ⟨"unknown", by simp only [loadModuleClass, hlk]⟩
      · have hnone : tryCandidates env.importClass (c :: cs) = Option.none := by
          apply tryCandidates_none
          intro c1 hc1
          apply hfail
          rw [hlk]
          exact hc1
        exact ⟨c.profile_section, by simp only [loadModuleClass, hlk, hnone]⟩
  obtain ⟨sec, hload⟩ := hload
  have hrun : ∀ p : Profile, runModule env module_id p =
      (⟨module_id, "unavailable", "Module implementation not found.", sec, []⟩, p) := by
    intro p
    simp only [runModule, hload]
  refine ⟨sec, hrun, ?_⟩
  intro order p0 i hi hget
  refine ⟨runModules_length env order p0, ?_, runModules_module_at env order p0⟩
  rw [runModules_get?_eq env order p0 i hi, hget,
    hrun (runModules env (order.take i) p0).2]

/-- C2, witness: Sherlock's implementation raises "boom"; the record at
position 0 is `failed` with summary "boom", and Twint still gets a record. -/
theorem c2_module_failure_witness :
    (loadModuleClass (OrchestratorEnv.mk fun path _ =>
        if path = "intel_engine.modules.research_identity_username_search" then
          some ⟨fun p => ExecOutcome.raises "boom" p⟩
        else Option.none).importClass "Sherlock" =
      (some ⟨fun p => ExecOutcome.raises "boom" p⟩, "social")) ∧
    ((runModules (OrchestratorEnv.mk fun path _ =>
        if path = "intel_engine.modules.research_identity_username_search" then
          some ⟨fun p => ExecOutcome.raises "boom" p⟩
        else Option.none) ["Sherlock", "Twint"] []).1.length = 2 ∧
      (runModules (OrchestratorEnv.mk fun path _ =>
        if path = "intel_engine.modules.research_identity_username_search" then
          some ⟨fun p => ExecOutcome.raises "boom" p⟩
        else Option.none) ["Sherlock", "Twint"] []).1.get? 0 =
        some ⟨"Sherlock", "failed", "boom", "social", []⟩ ∧
      ∀ (j : Nat) (hj : j < (["Sherlock", "Twint"] : List String).length),
        ∃ r, (runModules (OrchestratorEnv.mk fun path _ =>
          if path = "intel_engine.modules.research_identity_username_search" then
            some ⟨fun p => ExecOutcome.raises "boom" p⟩
          else Option.none) ["Sherlock", "Twint"] []).1.get? j = some r ∧
          r.module = (["Sherlock", "Twint"] : List String).get ⟨j, hj⟩) :=
  ⟨rfl, c2_module_failure_recorded_and_run_continues _ ["Sherlock", "Twint"] [] 0
    (by decide) ⟨fun p => ExecOutcome.raises "boom" p⟩ "social" "boom" []
    rfl rfl rfl⟩

/-- C4, witness: with no importable implementation, GHunt is recorded
`unavailable` with its registered section and the run proceeds. -/
theorem c4_unavailable_module_witness :
    (∀ c ∈ (lookupStr "GHunt" MODULE_REGISTRY).getD [],
      (OrchestratorEnv.mk fun _ _ => Option.none).importClass
        c.import_path c.class_name = Option.none) ∧
    ∃ sec, (∀ p : Profile, runModule (OrchestratorEnv.mk fun _ _ => Option.none) "GHunt" p =
        (⟨"GHunt", "unavailable", "Module implementation not found.", sec, []⟩, p)) ∧
      ∀ (order : List String) (p0 : Profile) (i : Nat) (hi : i < order.length),
        order.get ⟨i, hi⟩ = "GHunt" →
        (runModules (OrchestratorEnv.mk fun _ _ => Option.none) order p0).1.length =
          order.length ∧
        (runModules (OrchestratorEnv.mk fun _ _ => Option.none) order p0).1.get? i =
          some ⟨"GHunt", "unavailable", "Module implementation not found.", sec, []⟩ ∧
        ∀ (j : Nat) (hj : j < order.length),
          ∃ r, (runModules (OrchestratorEnv.mk fun _ _ => Option.none)
            order p0).1.get? j = some r ∧ r.module = order.get ⟨j, hj⟩ :=
  ⟨fun _ _ => rfl,
    c4_unavailable_module_recorded_and_run_continues _ "GHunt" fun _ _ => rfl⟩
